import Mathlib

/-!
Verification development for the syntax-highlighting component of the
Notepad application (src/main.py, class `CodeHighlighter` together with
the helper `apply_syntax_highlighting`).

A line of text is modelled as a `List Char`; positions are `Nat`
indices into that list.  The Qt regular-expression primitives used by
the source are modelled explicitly:

* a `Matcher` maps a text and a position `i` to `some l` when the
  modelled pattern has a match of length `l` starting exactly at `i`
  (and `none` otherwise); each concrete pattern of the rule tables is
  translated into such a function below, following PCRE semantics
  (greedy repetition with backtracking, alternation tried in order,
  `\b` word boundaries, `.` not matching a newline);
* `QRegularExpression.match(text, offset)`, which yields the leftmost
  match starting at or after `offset`, is modelled by `matchFrom`;
* the iterator `globalMatch`, which yields leftmost-first
  non-overlapping matches (advancing by one position after a
  zero-length match), is modelled by `globalMatches`.

Loops are written with an explicit fuel argument so that every
definition is structurally recursive and computable by `decide`; the
top-level wrappers pass `text.length + 2` fuel, which is enough because
every iteration strictly advances the scan position (a global match
starts at a position `≤ text.length`, and the block-comment scanner
advances by at least the length of the `*/` delimiter).
-/

/-- `text.get? i` tested against a boolean predicate; `false` out of range. -/
def testAt (p : Char → Bool) (t : List Char) (i : Nat) : Bool :=
  match t.get? i with
  | some c => p c
  | none => false

/-- Does position `i` of `t` hold exactly the character `c`? -/
def charAtIs (t : List Char) (i : Nat) (c : Char) : Bool :=
  testAt (fun d => d == c) t i

/-- Regex `\w`: ASCII letters, digits and underscore. -/
def isWordChar (c : Char) : Bool :=
  c.isAlphanum || c == '_'

/-- Regex `\s`: space, tab, newline, carriage return, vertical tab, form feed. -/
def isSpaceChar (c : Char) : Bool :=
  c == ' ' || c == '\t' || c == '\n' || c == '\r' || c == '\x0b' || c == '\x0c'

/-- Is the character at position `i` a word character (`false` out of range)? -/
def isWordAt (t : List Char) (i : Nat) : Bool :=
  testAt isWordChar t i

/-- Regex `\b` at position `i`: exactly one side of the position is a word
character (positions outside the text count as non-word). -/
def atWordBoundary (t : List Char) (i : Nat) : Bool :=
  (decide (0 < i) && isWordAt t (i - 1)) != isWordAt t i

/-- End position of the maximal run of characters satisfying `p` that starts
at position `i` of `t`. -/
def runEnd (p : Char → Bool) (t : List Char) (i : Nat) : Nat :=
  i + ((t.drop i).takeWhile p).length

/-- `leadsWith pat l`: is `pat` an initial segment of `l`? -/
def leadsWith : List Char → List Char → Bool
  | [], _ => true
  | _ :: _, [] => false
  | c :: cs, d :: ds => c == d && leadsWith cs ds

/-- Position of the first occurrence of the literal `pat` in `t` starting at
or after position `i` (models matching a regex-escaped literal from a given
offset). -/
def findFrom (pat : List Char) (t : List Char) (i : Nat) : Option Nat :=
  (List.range (t.length + 1)).find? (fun j => decide (i ≤ j) && leadsWith pat (t.drop j))

/-- Position of the last occurrence of the literal `pat` in `t` that starts at
or after `i` and at or before `bound` (used for the greedy `.*` of the CSS
comment pattern, which backtracks from the right). -/
def findLastFrom (pat : List Char) (t : List Char) (i : Nat) (bound : Nat) : Option Nat :=
  ((List.range (bound + 1)).filter (fun j => decide (i ≤ j) && leadsWith pat (t.drop j))).getLast?

/-- A matcher gives, for a text and a position, the length of the modelled
pattern's match starting exactly there (if any). -/
abbrev Matcher := List Char → Nat → Option Nat

/-- Scan positions `j, j+1, ...` until the matcher succeeds: fuel-indexed
worker for `matchFrom`. -/
def matchFromAux (m : Matcher) (t : List Char) : Nat → Nat → Option (Nat × Nat)
  | _, 0 => none
  | j, fuel + 1 =>
    match m t j with
    | some l => some (j, l)
    | none => matchFromAux m t (j + 1) fuel

/-- Models `QRegularExpression.match(text, offset)`: the leftmost match
starting at or after `i`, returned as (start, length).  Start positions up to
and including `t.length` are tried (a zero-length match may sit at the very
end of the text). -/
def matchFrom (m : Matcher) (t : List Char) (i : Nat) : Option (Nat × Nat) :=
  matchFromAux m t i (t.length + 1 - i)

/-- Fuel-indexed worker for `globalMatches`. -/
def gmAux (m : Matcher) (t : List Char) : Nat → Nat → List (Nat × Nat)
  | _, 0 => []
  | pos, fuel + 1 =>
    match matchFrom m t pos with
    | none => []
    | some (p, l) => (p, l) :: gmAux m t (p + max l 1) fuel

/-- Models `QRegularExpression.globalMatch`: the list of leftmost-first
non-overlapping matches of the pattern in `t`; after a match the scan resumes
at its end, and after a zero-length match it advances by one position. -/
def globalMatches (m : Matcher) (t : List Char) : List (Nat × Nat) :=
  gmAux m t 0 (t.length + 2)

/-- A character format, as produced by `CodeHighlighter._fmt` (a foreground
color name plus bold/italic flags). -/
structure Fmt where
  color : String
  bold : Bool
  italic : Bool
deriving DecidableEq, Repr

/-- `CodeHighlighter._fmt(color_name, bold, italic)`. -/
def _fmt (color : String) (bold : Bool) (italic : Bool) : Fmt :=
  ⟨color, bold, italic⟩

def kw_fmt : Fmt := _fmt "#569CD6" true false
def type_fmt : Fmt := _fmt "#4EC9B0" true false
def num_fmt : Fmt := _fmt "#B5CEA8" false false
def str_fmt : Fmt := _fmt "#CE9178" false false
def comment_fmt : Fmt := _fmt "#6A9955" false true
def func_fmt : Fmt := _fmt "#DCDCAA" false false
def tag_fmt : Fmt := _fmt "#569CD6" true false
def attr_fmt : Fmt := _fmt "#9CDCFE" false false
def html_str_fmt : Fmt := _fmt "#D69D85" false false

/-- One emitted highlight span: `setFormat(start, length, fmt)`. -/
structure Span where
  start : Nat
  length : Nat
  fmt : Fmt
deriving DecidableEq, Repr

/-- Models the pattern built by `CodeHighlighter._word_pattern`:
`\b(?:w1|...|wn)\b` (every word is alphanumeric, so the
`QRegularExpression.escape` in the source leaves it unchanged).  The
alternation tries the words in list order, and the trailing `\b` must hold
after the chosen word. -/
def wordMatcher (words : List String) : Matcher := fun t i =>
  if atWordBoundary t i then
    (words.find? (fun w => leadsWith w.toList (t.drop i) && atWordBoundary t (i + w.length))).map
      (fun w => w.length)
  else none

/-- Models `\b[A-Za-z_]\w*(?=\s*\()` (the function-call heuristic): a word
boundary, a leading letter or underscore, the greedy rest of the identifier,
and a lookahead for optional whitespace followed by an opening parenthesis.
Shrinking the greedy `\w*` can never help the lookahead (the character before
the shrunk end is a word character, which is neither whitespace nor a
parenthesis), so no backtracking case is needed. -/
def identCallMatcher : Matcher := fun t i =>
  if testAt (fun c => c.isAlpha || c == '_') t i && !(decide (0 < i) && isWordAt t (i - 1)) then
    let j := runEnd isWordChar t (i + 1)
    let k := runEnd isSpaceChar t j
    if charAtIs t k '(' then some (j - i) else none
  else none

/-- Models the lazy quoted-string patterns `\".*?\"`, `'.*?'` and the
backtick variant: the quote character `q`, then the fewest characters (none
of them a newline, since `.` does not match one) up to the next closing `q`. -/
def lazyQuoteMatcher (q : Char) : Matcher := fun t i =>
  if charAtIs t i q then
    match findFrom [q] t (i + 1) with
    | some j => if j ≤ runEnd (fun c => c != '\n') t (i + 1) then some (j + 1 - i) else none
    | none => none
  else none

/-- Models `\b\d+(\.\d+)?\b`: a word boundary, a greedy digit run, an
optional fractional part, and a final word boundary.  When the final `\b`
fails after the fractional part the regex backtracks and drops the group
(the dot before the group's digits is a non-word character, so the `\b`
then holds); when it fails without a fractional part no shorter match is
possible (every earlier split point sits between two digits). -/
def numberMatcher : Matcher := fun t i =>
  if testAt Char.isDigit t i && !(decide (0 < i) && isWordAt t (i - 1)) then
    let j := runEnd Char.isDigit t i
    if charAtIs t j '.' && testAt Char.isDigit t (j + 1) then
      let j2 := runEnd Char.isDigit t (j + 1)
      if !(isWordAt t j2) then some (j2 - i) else some (j - i)
    else
      if !(isWordAt t j) then some (j - i) else none
  else none

/-- Models `//.*` and `#.*`: the literal prefix, then everything up to the
end of the line (`.` stops at a newline). -/
def lineCommentMatcher (pre : List Char) : Matcher := fun t i =>
  if leadsWith pre (t.drop i) then
    some (runEnd (fun c => c != '\n') t (i + pre.length) - i)
  else none

/-- Models the PHP markup pattern `<\?php|<\?|/\*|\*/|\?>`: an alternation of
literals, tried in order. -/
def phpTagMatcher : Matcher := fun t i =>
  (["<?php", "<?", "/*", "*/", "?>"].find? (fun w => leadsWith w.toList (t.drop i))).map
    (fun w => w.length)

/-- Models `\$[A-Za-z_]\w*` (PHP variables). -/
def phpVarMatcher : Matcher := fun t i =>
  if charAtIs t i '$' && testAt (fun c => c.isAlpha || c == '_') t (i + 1) then
    some (runEnd isWordChar t (i + 2) - i)
  else none

/-- Models `</?[A-Za-z][^>]*>` (HTML/XML tags): `<`, an optional `/`, a
letter, then everything up to and including the first `>` (the greedy
`[^>]*` cannot cross a `>`). -/
def tagMatcher : Matcher := fun t i =>
  if charAtIs t i '<' then
    let j := if charAtIs t (i + 1) '/' then i + 2 else i + 1
    if testAt Char.isAlpha t j then
      match findFrom ['>'] t (j + 1) with
      | some k => some (k + 1 - i)
      | none => none
    else none
  else none

/-- Character class `[a-zA-Z-:]` of the HTML attribute pattern (letters, the
literal dash, and the colon). -/
def attrClassChar (c : Char) : Bool :=
  c.isAlpha || c == '-' || c == ':'

/-- Models `\b[a-zA-Z-:]+(?=\=)` (HTML attribute names): a word boundary, a
greedy run of class characters, and a lookahead for `=`.  `=` is not in the
class, so shrinking the run can never make the lookahead succeed. -/
def attrMatcher : Matcher := fun t i =>
  if atWordBoundary t i && testAt attrClassChar t i then
    let j := runEnd attrClassChar t i
    if charAtIs t j '=' then some (j - i) else none
  else none

/-- Character class `[A-Za-z0-9_\-]` of the CSS selector pattern. -/
def cssIdentChar (c : Char) : Bool :=
  c.isAlphanum || c == '_' || c == '-'

/-- Models `[.#]?[A-Za-z0-9_\-]+(?=\s*\{)` (CSS selectors): an optional `.`
or `#`, a greedy identifier run, and a lookahead for optional whitespace
followed by an opening brace. -/
def cssSelectorMatcher : Matcher := fun t i =>
  let s := if charAtIs t i '.' || charAtIs t i '#' then i + 1 else i
  if testAt cssIdentChar t s then
    let j := runEnd cssIdentChar t s
    let k := runEnd isSpaceChar t j
    if charAtIs t k (Char.ofNat 123) then some (j - i) else none
  else none

/-- Character class `[A-Za-z-]` of the CSS property pattern. -/
def cssPropChar (c : Char) : Bool :=
  c.isAlpha || c == '-'

/-- Models `\b[A-Za-z-]+\s*:` (CSS property names): a word boundary, a
greedy run of letters and dashes, optional whitespace, and a consumed
colon. -/
def cssPropMatcher : Matcher := fun t i =>
  if atWordBoundary t i && testAt cssPropChar t i then
    let j := runEnd cssPropChar t i
    let k := runEnd isSpaceChar t j
    if charAtIs t k ':' then some (k + 1 - i) else none
  else none

/-- Models `:\s*[^;]+;` (crude CSS property values): a colon, then at least
one character up to and including the first following semicolon (`\s*` and
`[^;]+` together absorb exactly the characters before it, and `[^;]+` needs
at least one of them). -/
def cssValueMatcher : Matcher := fun t i =>
  if charAtIs t i ':' then
    match findFrom [';'] t (i + 1) with
    | some j => if i + 2 ≤ j then some (j + 1 - i) else none
    | none => none
  else none

/-- Models `/\*.*\*/` (the single-line CSS comment rule): `/*`, then the
greedy `.*`, which backtracks from the right to the last `*/` reachable
without crossing a newline. -/
def cssCommentMatcher : Matcher := fun t i =>
  if leadsWith ['/', '*'] (t.drop i) then
    match findLastFrom ['*', '/'] t (i + 2) (runEnd (fun c => c != '\n') t (i + 2)) with
    | some j => some (j + 2 - i)
    | none => none
  else none

/-- Scans the body of `\"(\\.|[^\"])*\"` (JSON strings) with PCRE
backtracking, returning the number of characters consumed by the starred
body plus the closing quote.  Neither alternative of the star can consume a
quote, so the star has a choice point only at a backslash: `\\.` (the escape,
which cannot cross a newline) is preferred, and when the whole continuation
after it fails the engine backtracks and lets `[^\"]` consume the backslash
alone — so for quote‑backslash‑quote the escape path finds no closing quote
and the fallback closes the string at the escaped quote. -/
def jsonStrScan : List Char → Option Nat
  | [] => none
  | '"' :: _ => some 1
  | '\\' :: [] => none
  | '\\' :: d :: rest =>
    match (if d != '\n' then jsonStrScan rest else none) with
    | some n => some (n + 2)
    | none =>
      match jsonStrScan (d :: rest) with
      | some n => some (n + 1)
      | none => none
  | _ :: rest =>
    match jsonStrScan rest with
    | some n => some (n + 1)
    | none => none

/-- Models `\"(\\.|[^\"])*\"` (the generic JSON string rule). -/
def jsonStringMatcher : Matcher := fun t i =>
  if charAtIs t i '"' then
    (jsonStrScan (t.drop (i + 1))).map (fun l => l + 1)
  else none

/-- Models `\"(\\.|[^\"])*\"(?=\s*:)` (the JSON key rule): a JSON string
followed by a lookahead for optional whitespace and a colon. -/
def jsonKeyMatcher : Matcher := fun t i =>
  match jsonStringMatcher t i with
  | some l =>
    let k := runEnd isSpaceChar t (i + l)
    if charAtIs t k ':' then some l else none
  | none => none

/-- Modelled from the spec: the test pattern `\b\d*\b` of §8 (it appears in
no profile of the source).  At a word boundary the greedy `\d*` takes the
whole digit run when a boundary follows it, and otherwise backtracks to the
empty match (inner positions of the run are never boundaries). -/
def bdigitsbMatcher : Matcher := fun t i =>
  if atWordBoundary t i then
    let j := runEnd Char.isDigit t i
    if j == i then some 0
    else if !(isWordAt t j) then some (j - i) else some 0
  else none

/-- A language profile: the ordered rule list (`self.rules`) and the optional
block-comment rule (`self.multi_line_comment`).  Every block-comment rule in
the source uses the delimiters `/\*` and `\*/` (lines 112, 127 and 141 of
src/main.py), so only its format needs to be stored. -/
structure LanguageProfile where
  rules : List (Matcher × Fmt)
  multi_line_comment : Option Fmt

def pythonKeywords : List String :=
  ["and", "as", "assert", "break", "class", "continue", "def", "del", "elif", "else", "except",
   "False", "finally", "for", "from", "global", "if", "import", "in", "is", "lambda", "None",
   "nonlocal", "not", "or", "pass", "raise", "return", "True", "try", "while", "with", "yield"]

def pythonTypes : List String :=
  ["int", "float", "str", "list", "dict", "set", "tuple", "bool", "bytes"]

def cKeywords : List String :=
  ["if", "else", "switch", "case", "for", "while", "do", "break", "continue", "return",
   "class", "struct", "public", "private", "protected", "virtual", "override", "static",
   "constexpr", "template", "typename", "using", "namespace", "new", "delete", "try", "catch",
   "throw"]

def cTypes : List String :=
  ["int", "long", "short", "float", "double", "char", "bool", "void", "size_t", "auto"]

def jsKeywords : List String :=
  ["var", "let", "const", "if", "else", "for", "while", "do", "switch", "case", "break",
   "continue", "function", "return", "class", "extends", "import", "from", "export", "new",
   "try", "catch", "finally", "await", "async"]

def phpKeywords : List String :=
  ["echo", "array", "function", "if", "else", "foreach", "for", "while", "return", "class",
   "public", "private", "protected", "namespace", "use", "new", "try", "catch", "finally",
   "throw"]

/-- `CodeHighlighter._build_rules`, dispatching on the (already lowercased)
language name exactly as the if/elif chain of the source does; each branch
lists its rules in the order they are added by `_add_rule`. -/
def _build_rules (lang : String) : LanguageProfile :=
  if lang ∈ ["python"] then
    ⟨[(wordMatcher pythonKeywords, kw_fmt),
      (wordMatcher pythonTypes, type_fmt),
      (identCallMatcher, func_fmt),
      (numberMatcher, num_fmt),
      (lazyQuoteMatcher '"', str_fmt),
      (lazyQuoteMatcher '\'', str_fmt),
      (lineCommentMatcher ['#'], comment_fmt)], none⟩
  else if lang ∈ ["cpp", "c", "c++", "cxx", "h", "hpp", "cc", "c++-header", "c-header",
                  "java", "csharp", "c#"] then
    ⟨[(wordMatcher cKeywords, kw_fmt),
      (wordMatcher cTypes, type_fmt),
      (identCallMatcher, func_fmt),
      (lazyQuoteMatcher '"', str_fmt),
      (lazyQuoteMatcher '\'', str_fmt),
      (numberMatcher, num_fmt),
      (lineCommentMatcher ['/', '/'], comment_fmt)], some comment_fmt⟩
  else if lang ∈ ["javascript", "js", "typescript", "ts", "jsx", "tsx"] then
    ⟨[(wordMatcher jsKeywords, kw_fmt),
      (identCallMatcher, func_fmt),
      (lazyQuoteMatcher '"', str_fmt),
      (lazyQuoteMatcher '\'', str_fmt),
      (lazyQuoteMatcher (Char.ofNat 96), str_fmt),
      (numberMatcher, num_fmt),
      (lineCommentMatcher ['/', '/'], comment_fmt)], some comment_fmt⟩
  else if lang ∈ ["php"] then
    ⟨[(phpTagMatcher, comment_fmt),
      (wordMatcher phpKeywords, kw_fmt),
      (phpVarMatcher, type_fmt),
      (lazyQuoteMatcher '"', str_fmt),
      (lazyQuoteMatcher '\'', str_fmt),
      (lineCommentMatcher ['/', '/'], comment_fmt)], some comment_fmt⟩
  else if lang ∈ ["html", "htm"] then
    ⟨[(tagMatcher, tag_fmt),
      (attrMatcher, attr_fmt),
      (lazyQuoteMatcher '"', html_str_fmt),
      (lazyQuoteMatcher '\'', html_str_fmt)], none⟩
  else if lang ∈ ["css"] then
    ⟨[(cssSelectorMatcher, func_fmt),
      (cssPropMatcher, attr_fmt),
      (cssValueMatcher, str_fmt),
      (cssCommentMatcher, comment_fmt)], none⟩
  else if lang ∈ ["json"] then
    ⟨[(jsonKeyMatcher, attr_fmt),
      (jsonStringMatcher, html_str_fmt),
      (wordMatcher ["true", "false", "null"], kw_fmt),
      (numberMatcher, num_fmt)], none⟩
  else if lang ∈ ["xml"] then
    ⟨[(tagMatcher, tag_fmt),
      (lazyQuoteMatcher '"', html_str_fmt)], none⟩
  else
    ⟨[(lazyQuoteMatcher '"', str_fmt),
      (lazyQuoteMatcher '\'', str_fmt),
      (numberMatcher, num_fmt),
      (lineCommentMatcher ['/', '/'], comment_fmt),
      (lineCommentMatcher ['#'], comment_fmt)], none⟩

/-- `CodeHighlighter.__init__` lowercases the language name before building
the rules. -/
def codeHighlighterProfile (language : String) : LanguageProfile :=
  _build_rules language.toLower

/-- The spans that one rule's pass over the text emits (the inner while
loop of `highlightBlock`): one span per global match whose length is
positive. -/
def rulePass (m : Matcher) (fmt : Fmt) (t : List Char) : List Span :=
  (globalMatches m t).filterMap
    (fun pl => if 0 < pl.2 then some ⟨pl.1, pl.2, fmt⟩ else none)

/-- The spans the rule-based passes emit, in rule order (the outer for
loop of `highlightBlock`). -/
def ruleSpans (rules : List (Matcher × Fmt)) (t : List Char) : List Span :=
  (rules.map (fun r => rulePass r.1 r.2 t)).flatten

/-- The `/\*` start delimiter of every block-comment rule. -/
def startDelim : List Char := ['/', '*']

/-- The `\*/` end delimiter of every block-comment rule. -/
def endDelim : List Char := ['*', '/']

/-- The while loop of `highlightBlock` that paints block comments, as a
fuel-indexed function of the current `startIndex` (an `Int`, since the
source uses `-1` for "no further start delimiter") and the block state set
so far (`none` when `setCurrentBlockState` has not been called).  A closed
comment spans from the start delimiter to the end of the `*/` match and
sets state 0; when the remaining text holds no further start delimiter the
loop's next iteration exits at `startIndex = -1`, which is inlined here
into the closed-comment branch.  An unclosed comment spans to the end of
the line and sets state 1. -/
def blockLoopAux (fmt : Fmt) (t : List Char) : Int → Option Int → Nat → List Span × Option Int
  | _, st, 0 => ([], st)
  | si, st, fuel + 1 =>
    if si < 0 then ([], st)
    else
      match findFrom endDelim t si.toNat with
      | none => ([⟨si.toNat, t.length - si.toNat, fmt⟩], some 1)
      | some e =>
        let endIndex := e + 2
        let sp : Span := ⟨si.toNat, endIndex - si.toNat, fmt⟩
        match findFrom startDelim t endIndex with
        | none => ([sp], some 0)
        | some s2 =>
          let rest := blockLoopAux fmt t (s2 : Int) (some 0) fuel
          (sp :: rest.1, rest.2)

/-- The block-comment part of `highlightBlock` (lines 186–208 of
src/main.py): when the previous block state is not 1 the scan starts at the
first `/\*` match (or `-1` when there is none), and otherwise at 0. -/
def blockPass (fmt : Fmt) (t : List Char) (prev : Int) : List Span × Option Int :=
  let startIndex : Int :=
    if prev ≠ 1 then
      match findFrom startDelim t 0 with
      | some s => (s : Int)
      | none => -1
    else 0
  blockLoopAux fmt t startIndex none (t.length + 2)

/-- `CodeHighlighter.highlightBlock` for one line: the rule spans in rule
order, followed by the block-comment spans; the second component is the
block state set during the call (`none` when `setCurrentBlockState` was
never called, which Qt treats as leaving the stored state untouched). -/
def highlightBlock (p : LanguageProfile) (t : List Char) (prev : Int) : List Span × Option Int :=
  let rs := ruleSpans p.rules t
  match p.multi_line_comment with
  | none => (rs, none)
  | some fmt =>
    let bs := blockPass fmt t prev
    (rs ++ bs.1, bs.2)

/-- Index of the last `.` in a list of characters, if any. -/
def rfindDot : List Char → Option Nat
  | [] => none
  | c :: cs =>
    match rfindDot cs with
    | some i => some (i + 1)
    | none => if c == '.' then some 0 else none

/-- The final path component: everything after the last `/`. -/
def afterLastSlash (l : List Char) : List Char :=
  (l.reverse.takeWhile (fun c => c != '/')).reverse

/-- `Path(filepath).suffix`: the extension of the final component, i.e. the
part from the last dot onward, provided that dot is neither the first nor
the last character of the component; otherwise the empty string. -/
def pathSuffix (fp : List Char) : List Char :=
  let name := afterLastSlash fp
  match rfindDot name with
  | some i => if 0 < i ∧ i + 1 < name.length then name.drop i else []
  | none => []

/-- The extension-to-language table of `apply_syntax_highlighting`, in
source order. -/
def extMapping : List (List Char × String) :=
  [(".py".toList, "python"),
   (".pyw".toList, "python"),
   (".c".toList, "c"),
   (".h".toList, "c"),
   (".cpp".toList, "cpp"),
   (".cc".toList, "cpp"),
   (".cxx".toList, "cpp"),
   (".hpp".toList, "cpp"),
   (".java".toList, "java"),
   (".js".toList, "javascript"),
   (".jsx".toList, "javascript"),
   (".ts".toList, "typescript"),
   (".tsx".toList, "typescript"),
   (".cs".toList, "csharp"),
   (".php".toList, "php"),
   (".html".toList, "html"),
   (".htm".toList, "html"),
   (".css".toList, "css"),
   (".json".toList, "json"),
   (".xml".toList, "xml"),
   (".sh".toList, "generic"),
   (".bash".toList, "generic"),
   (".ps1".toList, "generic"),
   (".rs".toList, "cpp"),
   (".go".toList, "cpp"),
   (".swift".toList, "cpp"),
   (".kt".toList, "java"),
   (".kts".toList, "java")]

/-- `ext = Path(filepath).suffix.lower(); lang = mapping.get(ext, None)`. -/
def langOf (filepath : String) : Option String :=
  List.lookup ((pathSuffix filepath.toList).map Char.toLower) extMapping

/-- The highlighting-relevant state of an editor widget: the value of its
`highlighter` attribute, holding the language of the attached
`CodeHighlighter` (absent when no highlighter is attached). -/
structure Editor where
  highlighter : Option String
deriving DecidableEq, Repr

/-- `apply_syntax_highlighting(editor, filepath)` as a function on the
editor's highlighting state.  A missing (`None`) or empty file path, or a
missing editor, returns immediately; an unmapped extension deletes any
attached highlighter; a mapped one attaches a fresh `CodeHighlighter` for
the mapped language. -/
def apply_syntax_highlighting : Option Editor → Option String → Option Editor
  | ed, none => ed
  | none, some _ => none
  | some ed, some fp =>
    if fp = "" then some ed
    else
      match langOf fp with
      | none => some ⟨none⟩
      | some lang => some ⟨some lang⟩

/-- The highlighting of one line of an editor's document: no highlighter
attached means no spans and no stored state. -/
def editorLineHighlight (ed : Editor) (t : List Char) (prev : Int) : List Span × Option Int :=
  match ed.highlighter with
  | none => ([], none)
  | some lang => highlightBlock (codeHighlighterProfile lang) t prev

/-- Modelled from the spec (§4.1 steps 3–4, the wording of claim C4): the
block-comment scan from a found start delimiter position `s`.  A found end
delimiter closes the comment — the span runs to the end of the `*/` match —
and the scan repeats from the next start delimiter; a missing end delimiter
makes the rest of the line one comment span with outgoing state
`InBlockComment` (`true`). -/
def specScanFrom (fmt : Fmt) (t : List Char) : Nat → Nat → List Span × Bool
  | _, 0 => ([], false)
  | s, fuel + 1 =>
    match findFrom endDelim t s with
    | none => ([⟨s, t.length - s, fmt⟩], true)
    | some e =>
      let sp : Span := ⟨s, e + 2 - s, fmt⟩
      match findFrom startDelim t (e + 2) with
      | none => ([sp], false)
      | some s2 =>
        let rest := specScanFrom fmt t s2 fuel
        (sp :: rest.1, rest.2)

/-- Modelled from the spec (§4.1 step 3, the wording of claim C4): the whole
block-comment pass.  With incoming state `InBlockComment` the end delimiter
is searched from position 0; if it ends at `e` the span `[0, e)` is emitted
and scanning resumes with a search for a new start delimiter from `e`
onward, and if there is none the whole line is one comment span and the
outgoing state stays `InBlockComment`.  With incoming state `Clean` the scan
starts at the first start delimiter, if any. -/
def specBlockScan (fmt : Fmt) (t : List Char) (inB : Bool) : List Span × Bool :=
  if inB then
    match findFrom endDelim t 0 with
    | none => ([⟨0, t.length, fmt⟩], true)
    | some e =>
      match findFrom startDelim t (e + 2) with
      | none => ([⟨0, e + 2, fmt⟩], false)
      | some s2 =>
        let rest := specScanFrom fmt t s2 (t.length + 1)
        (⟨0, e + 2, fmt⟩ :: rest.1, rest.2)
  else
    match findFrom startDelim t 0 with
    | none => ([], false)
    | some s => specScanFrom fmt t s (t.length + 2)

/-- C1 counterexample: the claim maps `.rs` to the generic profile, but the
code attaches the cpp (C-family) profile to `.rs` files. -/
theorem extension_map_rs_not_generic :
    apply_syntax_highlighting (some ⟨none⟩) (some "x.rs") = some ⟨some "cpp"⟩ ∧
    apply_syntax_highlighting (some ⟨none⟩) (some "x.rs") ≠ some ⟨some "generic"⟩ := by
  decide

/-- C1 (amended): the extension-to-profile mapping is the table of §6 except
that `.rs`, `.go` and `.swift` map to the cpp (C-family) profile rather than
the generic one; suffixes are compared case-insensitively, and an unmapped
suffix (or no suffix) yields no language, which clears any attached
highlighter. -/
theorem extension_map_table :
    langOf "f.py" = some "python" ∧ langOf "f.pyw" = some "python" ∧
    langOf "f.c" = some "c" ∧ langOf "f.h" = some "c" ∧
    langOf "f.cpp" = some "cpp" ∧ langOf "f.cc" = some "cpp" ∧
    langOf "f.cxx" = some "cpp" ∧ langOf "f.hpp" = some "cpp" ∧
    langOf "f.java" = some "java" ∧
    langOf "f.js" = some "javascript" ∧ langOf "f.jsx" = some "javascript" ∧
    langOf "f.ts" = some "typescript" ∧ langOf "f.tsx" = some "typescript" ∧
    langOf "f.cs" = some "csharp" ∧ langOf "f.php" = some "php" ∧
    langOf "f.html" = some "html" ∧ langOf "f.htm" = some "html" ∧
    langOf "f.css" = some "css" ∧ langOf "f.json" = some "json" ∧
    langOf "f.xml" = some "xml" ∧
    langOf "f.sh" = some "generic" ∧ langOf "f.bash" = some "generic" ∧
    langOf "f.ps1" = some "generic" ∧
    langOf "f.rs" = some "cpp" ∧ langOf "f.go" = some "cpp" ∧
    langOf "f.swift" = some "cpp" ∧
    langOf "f.kt" = some "java" ∧ langOf "f.kts" = some "java" ∧
    langOf "f.PY" = some "python" ∧ langOf "f.Swift" = some "cpp" ∧
    langOf "f.xyz" = none ∧ langOf "f" = none ∧
    apply_syntax_highlighting (some ⟨none⟩) (some "f.rs") = some ⟨some "cpp"⟩ ∧
    apply_syntax_highlighting (some ⟨some "python"⟩) (some "f.xyz") = some ⟨none⟩ := by
  decide

/-- C2 counterexample: on the continuation line `more */ end` with incoming
state `InBlockComment`, the code's comment span runs through the end of the
`*/` delimiter, giving `[0,7)`, not `[0,5)` as claimed. -/
theorem block_roundtrip_not_five :
    (highlightBlock (_build_rules "cpp") "more */ end".toList 1).1 = [⟨0, 7, comment_fmt⟩] ∧
    Span.mk 0 5 comment_fmt ∉ (highlightBlock (_build_rules "cpp") "more */ end".toList 1).1 := by
  decide

/-- C2 (amended): for the C-family profile, `/* a */ code /* b` highlighted
from state `Clean` ends in state `InBlockComment` (spans `[0,7)` and
`[13,17)`), and the continuation line `more */ end` highlighted from state
`InBlockComment` yields the single comment span `[0,7)` — through the end of
the `*/` delimiter — and outgoing state `Clean` (block state 0). -/
theorem block_roundtrip :
    highlightBlock (_build_rules "cpp") "/* a */ code /* b".toList 0
      = ([⟨0, 7, comment_fmt⟩, ⟨13, 4, comment_fmt⟩], some 1) ∧
    highlightBlock (_build_rules "cpp") "more */ end".toList 1
      = ([⟨0, 7, comment_fmt⟩], some 0) := by
  decide

/-- C7: the Python keyword rule matches whole words only: `classify(x)`
yields no keyword-styled span, while `class Foo:` yields exactly the
keyword span covering `class`. -/
theorem python_keyword_boundary :
    ((highlightBlock (_build_rules "python") "classify(x)".toList 0).1.filter
        (fun sp => sp.fmt == kw_fmt)) = [] ∧
    ((highlightBlock (_build_rules "python") "class Foo:".toList 0).1.filter
        (fun sp => sp.fmt == kw_fmt)) = [⟨0, 5, kw_fmt⟩] := by
  decide

/-- C5: a rule's pass emits a span exactly for each global (leftmost-first,
non-overlapping) match of positive length; the zero-length-only pattern
`\b\d*\b` therefore produces no spans on `abc`, although it matches twice. -/
theorem rule_pass_positive_matches :
    (∀ (m : Matcher) (f : Fmt) (t : List Char) (s l : Nat),
        Span.mk s l f ∈ rulePass m f t ↔ ((s, l) ∈ globalMatches m t ∧ 0 < l)) ∧
    globalMatches bdigitsbMatcher "abc".toList = [(0, 0), (3, 0)] ∧
    (∀ f : Fmt, rulePass bdigitsbMatcher f "abc".toList = []) := by
  refine ⟨?_, by decide, ?_⟩
  · intro m f t s l
    simp only [rulePass, List.mem_filterMap]
    constructor
    · rintro ⟨⟨s2, l2⟩, hmem, hif⟩
      by_cases h : 0 < l2
      · rw [if_pos h] at hif
        obtain ⟨rfl, rfl, -⟩ := Span.mk.injEq .. ▸ Option.some.injEq .. ▸ hif
        exact ⟨hmem, h⟩
      · rw [if_neg h] at hif
        cases hif
    · rintro ⟨hmem, hl⟩
      exact ⟨(s, l), hmem, by rw [if_pos hl]⟩
  · intro f
    rfl

/-- C8: the highlighting of one line is a pure function of the line text,
the incoming state and the profile — two runs on equal inputs give equal
span lists and outgoing states, and nothing else enters the computation. -/
theorem highlight_deterministic (p : LanguageProfile) (t1 t2 : List Char) (s1 s2 : Int)
    (ht : t1 = t2) (hs : s1 = s2) :
    highlightBlock p t1 s1 = highlightBlock p t2 s2 := by
  rw [ht, hs]

theorem highlight_deterministic_witness :
    ("x = 1".toList = "x = 1".toList ∧ (0 : Int) = 0) ∧
    highlightBlock (_build_rules "json") "x = 1".toList 0
      = highlightBlock (_build_rules "json") "x = 1".toList 0 :=
  ⟨⟨rfl, rfl⟩, highlight_deterministic (_build_rules "json") _ _ _ _ rfl rfl⟩

/-- C9: any incoming block state other than 1 — in particular the `-1` that
`previousBlockState` yields for the first line — takes the same branch as
state 0, so highlighting proceeds exactly as if the incoming state were
`Clean` (and, being a total function, it cannot crash). -/
theorem nonblock_state_treated_clean (p : LanguageProfile) (t : List Char) (s : Int)
    (hs : s ≠ 1) :
    highlightBlock p t s = highlightBlock p t 0 := by
  unfold highlightBlock blockPass
  rw [if_pos hs, if_pos (show (0 : Int) ≠ 1 by decide)]

theorem nonblock_state_treated_clean_witness :
    ((-1 : Int) ≠ 1) ∧
    highlightBlock (_build_rules "cpp") "int a; /* x".toList (-1)
      = highlightBlock (_build_rules "cpp") "int a; /* x".toList 0 :=
  ⟨by decide, nonblock_state_treated_clean (_build_rules "cpp") _ _ (by decide)⟩

/-- C6: a non-empty file path whose (lowercased) suffix is not in the
extension map removes any attached highlighter, whatever was attached
before; with no highlighter attached, every line of any content produces no
spans and stores no per-line state. -/
theorem unknown_extension_clears (fp : String) (h : Option String)
    (hfp : fp ≠ "") (hun : langOf fp = none) :
    apply_syntax_highlighting (some ⟨h⟩) (some fp) = some ⟨none⟩ ∧
    (∀ (t : List Char) (prev : Int), editorLineHighlight ⟨none⟩ t prev = ([], none)) := by
  constructor
  · simp only [apply_syntax_highlighting]
    rw [if_neg hfp, hun]
  · intro t prev
    rfl

theorem unknown_extension_clears_witness :
    (("a.xyz" : String) ≠ "" ∧ langOf "a.xyz" = none) ∧
    (apply_syntax_highlighting (some ⟨some "python"⟩) (some "a.xyz") = some ⟨none⟩ ∧
     (∀ (t : List Char) (prev : Int), editorLineHighlight ⟨none⟩ t prev = ([], none))) :=
  ⟨⟨by decide, by decide⟩,
   unknown_extension_clears "a.xyz" (some "python") (by decide) (by decide)⟩

/-- C10: a missing or empty file path (or a missing editor) makes
`apply_syntax_highlighting` a no-op on the editor's highlighting state, so
an attached highlighter can only be cleared by a call whose path is
non-empty and whose suffix is unmapped. -/
theorem empty_path_no_op :
    (∀ ed : Option Editor, apply_syntax_highlighting ed none = ed) ∧
    (∀ ed : Option Editor, apply_syntax_highlighting ed (some "") = ed) ∧
    (∀ (ed : Editor) (fp : Option String),
        apply_syntax_highlighting (some ed) fp = some ⟨none⟩ → ed.highlighter ≠ none →
        ∃ p : String, fp = some p ∧ p ≠ "" ∧ langOf p = none) := by
  refine ⟨?_, ?_, ?_⟩
  · intro ed
    cases ed <;> rfl
  · intro ed
    cases ed <;> rfl
  · intro ed fp happ hne
    match fp with
    | none =>
      rw [show apply_syntax_highlighting (some ed) none = some ed from rfl] at happ
      cases happ
      cases hne rfl
    | some p =>
      by_cases hp : p = ""
      · subst hp
        rw [show apply_syntax_highlighting (some ed) (some "") = some ed from rfl] at happ
        cases happ
        cases hne rfl
      · refine ⟨p, rfl, hp, ?_⟩
        have hstep : apply_syntax_highlighting (some ed) (some p)
            = (match langOf p with
               | none => some ⟨none⟩
               | some lang => some ⟨some lang⟩) := by
          simp only [apply_syntax_highlighting]
          rw [if_neg hp]
        rw [hstep] at happ
        cases hlk : langOf p with
        | none => rfl
        | some lang =>
          rw [hlk] at happ
          cases happ

lemma blockLoopAux_succ (fmt : Fmt) (t : List Char) (si : Int) (st : Option Int) (n : Nat) :
    blockLoopAux fmt t si st (n + 1)
      = if si < 0 then ([], st)
        else
          match findFrom endDelim t si.toNat with
          | none => ([⟨si.toNat, t.length - si.toNat, fmt⟩], some 1)
          | some e =>
            match findFrom startDelim t (e + 2) with
            | none => ([⟨si.toNat, e + 2 - si.toNat, fmt⟩], some 0)
            | some s2 =>
              (⟨si.toNat, e + 2 - si.toNat, fmt⟩
                  :: (blockLoopAux fmt t (s2 : Int) (some 0) n).1,
               (blockLoopAux fmt t (s2 : Int) (some 0) n).2) := rfl

lemma specScanFrom_succ (fmt : Fmt) (t : List Char) (s : Nat) (n : Nat) :
    specScanFrom fmt t s (n + 1)
      = match findFrom endDelim t s with
        | none => ([⟨s, t.length - s, fmt⟩], true)
        | some e =>
          match findFrom startDelim t (e + 2) with
          | none => ([⟨s, e + 2 - s, fmt⟩], false)
          | some s2 =>
            (⟨s, e + 2 - s, fmt⟩ :: (specScanFrom fmt t s2 n).1,
             (specScanFrom fmt t s2 n).2) := rfl

lemma blockLoopAux_spec (fmt : Fmt) (t : List Char) :
    ∀ (fuel : Nat) (s : Nat) (st : Option Int), st ≠ some 1 →
      (blockLoopAux fmt t (s : Int) st fuel).1 = (specScanFrom fmt t s fuel).1 ∧
      ((blockLoopAux fmt t (s : Int) st fuel).2 = some 1
        ↔ (specScanFrom fmt t s fuel).2 = true) := by
  intro fuel
  induction fuel with
  | zero =>
    intro s st hst
    exact ⟨rfl, ⟨fun h => absurd h hst, fun h => Bool.noConfusion h⟩⟩
  | succ n ih =>
    intro s st hst
    have hsi : ¬ ((s : Int) < 0) := Int.not_lt.mpr (Int.natCast_nonneg s)
    rw [blockLoopAux_succ fmt t (s : Int) st n, specScanFrom_succ fmt t s n, if_neg hsi]
    simp only [Int.toNat_natCast]
    cases hfe : findFrom endDelim t s with
    | none => exact ⟨rfl, ⟨fun _ => rfl, fun _ => rfl⟩⟩
    | some e =>
      simp only []
      cases hfs : findFrom startDelim t (e + 2) with
      | none =>
        refine ⟨rfl, ?_⟩
        show some (0 : Int) = some 1 ↔ false = true
        decide
      | some s2 =>
        obtain ⟨ih1, ih2⟩ := ih s2 (some 0) (by decide)
        exact ⟨congrArg (List.cons ⟨s, e + 2 - s, fmt⟩) ih1, ih2⟩

lemma specBlockScan_true (fmt : Fmt) (t : List Char) :
    specBlockScan fmt t true = specScanFrom fmt t 0 (t.length + 2) := rfl

lemma specBlockScan_false (fmt : Fmt) (t : List Char) :
    specBlockScan fmt t false
      = match findFrom startDelim t 0 with
        | none => ([], false)
        | some s => specScanFrom fmt t s (t.length + 2) := rfl

lemma blockPass_one (fmt : Fmt) (t : List Char) :
    blockPass fmt t 1 = blockLoopAux fmt t 0 none (t.length + 2) := rfl

lemma blockPass_not_one (fmt : Fmt) (t : List Char) (prev : Int) (h : prev ≠ 1) :
    blockPass fmt t prev
      = blockLoopAux fmt t
          (match findFrom startDelim t 0 with
           | some s => (s : Int)
           | none => -1) none (t.length + 2) := by
  simp only [blockPass]
  rw [if_pos h]

/-- C4: for every profile with a block-comment rule, the block-comment part
of `highlightBlock` behaves exactly as the spec's scanner: from incoming
state `InBlockComment` the end delimiter is searched from position 0 and a
find ending at `e` emits span `[0,e)` before resuming the start-delimiter
scan from `e`, a missing end delimiter turns the whole line into one
comment span with outgoing state `InBlockComment`; every found start
delimiter at `s` with an end match ending at `e` emits span `[s,e)` and the
scan repeats (several complete comments per line), and an unclosed one
emits `[s, len)` with outgoing state `InBlockComment`. -/
theorem block_comment_scan_spec (p : LanguageProfile) (fmt : Fmt)
    (hp : p.multi_line_comment = some fmt) (t : List Char) (prev : Int) :
    (highlightBlock p t prev).1
      = ruleSpans p.rules t ++ (specBlockScan fmt t (decide (prev = 1))).1 ∧
    ((highlightBlock p t prev).2 = some 1
      ↔ (specBlockScan fmt t (decide (prev = 1))).2 = true) := by
  have key : (blockPass fmt t prev).1 = (specBlockScan fmt t (decide (prev = 1))).1 ∧
      ((blockPass fmt t prev).2 = some 1
        ↔ (specBlockScan fmt t (decide (prev = 1))).2 = true) := by
    by_cases hprev : prev = 1
    · subst hprev
      rw [blockPass_one, show decide ((1 : Int) = 1) = true from rfl, specBlockScan_true]
      exact blockLoopAux_spec fmt t (t.length + 2) 0 none (by decide)
    · rw [blockPass_not_one fmt t prev hprev, decide_eq_false hprev, specBlockScan_false]
      cases hs0 : findFrom startDelim t 0 with
      | none =>
        refine ⟨rfl, ?_⟩
        show (none : Option Int) = some 1 ↔ false = true
        decide
      | some s => exact blockLoopAux_spec fmt t (t.length + 2) s none (by decide)
  simp only [highlightBlock, hp]
  exact ⟨by rw [key.1], key.2⟩

theorem block_comment_scan_spec_witness :
    (_build_rules "cpp").multi_line_comment = some comment_fmt ∧
    ((highlightBlock (_build_rules "cpp") "y /* a */ b".toList 0).1
        = ruleSpans (_build_rules "cpp").rules "y /* a */ b".toList
            ++ (specBlockScan comment_fmt "y /* a */ b".toList (decide ((0 : Int) = 1))).1 ∧
     ((highlightBlock (_build_rules "cpp") "y /* a */ b".toList 0).2 = some 1
        ↔ (specBlockScan comment_fmt "y /* a */ b".toList (decide ((0 : Int) = 1))).2
            = true)) :=
  ⟨rfl, block_comment_scan_spec (_build_rules "cpp") comment_fmt rfl "y /* a */ b".toList 0⟩

theorem empty_path_no_op_witness :
    apply_syntax_highlighting (some ⟨some "python"⟩) none = some ⟨some "python"⟩ ∧
    (∃ p : String, (some "a.xyz" : Option String) = some p ∧ p ≠ "" ∧ langOf p = none) :=
  ⟨empty_path_no_op.1 (some ⟨some "python"⟩),
   empty_path_no_op.2.2 ⟨some "python"⟩ (some "a.xyz") (by decide) (by decide)⟩
